import Mathlib

/-!
Verification of the JBsn backend server (`src/server.js`): a file-upload
service keeping metadata records in a whole-document JSON store, with
upload, listing, statistics and deletion operations.

The JavaScript source is shallowly embedded: the record store (`db.read`,
`db.addFile`, `db.getFiles`, `db.getFileById`, `db.deleteFile`,
`db.getStats`), the filename sanitization of the multer disk-storage
configuration, the extension filter, and the upload/delete request handlers
become pure Lean functions with explicit state passing.  External effects
are modelled as inputs: the current clock is a `Nat` parameter, the result
of `JSON.parse` on the persisted document is an `Except` value, the set of
blob files on disk is a list of names, and the MD5 digest of a file's bytes
is carried as a field of the incoming payload.
-/

namespace JBsn

/-- The metadata persisted for one uploaded file (the object built by
`db.addFile` from the handler's `fileInfo` plus `id`, `uploadDate`,
`status`).  `uploadDate` is the creation timestamp in milliseconds
(the source stores its ISO rendering and parses it back with `new Date`
when sorting). -/
structure FileRec where
  id : Nat
  filename : String
  originalName : String
  type : String
  size : Nat
  hash : String
  notes : String
  path : String
  uploadDate : Nat
  status : String
  deriving Repr, DecidableEq

/-- The `fileInfo` object assembled by the `POST /api/upload` handler
before it is passed to `db.addFile`. -/
structure FileInfo where
  filename : String
  originalName : String
  type : String
  size : Nat
  hash : String
  notes : String
  path : String
  deriving Repr, DecidableEq

/-- The whole persisted store document `{ files: [...], nextId: n }`. -/
structure StoreState where
  files : List FileRec
  nextId : Nat
  deriving Repr, DecidableEq

/-- The document written when the store file is first created:
`{ files: [], nextId: 1 }`. -/
def emptyStore : StoreState := { files := [], nextId := 1 }

/-- `db.read`: parse the persisted document; on any parse failure the
`catch` branch returns `{ files: [], nextId: 1 }`.  The outcome of
`JSON.parse` is the `Except` input. -/
def db_read (raw : Except String StoreState) : StoreState :=
  match raw with
  | .ok data => data
  | .error _ => { files := [], nextId := 1 }

/-- `db.addFile`: build the record with `id = nextId` (post-increment),
the current time as `uploadDate` and status `"uploaded"`, push it at the
end of `files`, and persist the incremented `nextId`. -/
def addFile (s : StoreState) (now : Nat) (info : FileInfo) : FileRec × StoreState :=
  let file : FileRec :=
    { id := s.nextId
      filename := info.filename
      originalName := info.originalName
      type := info.type
      size := info.size
      hash := info.hash
      notes := info.notes
      path := info.path
      uploadDate := now
      status := "uploaded" }
  (file, { files := s.files ++ [file], nextId := s.nextId + 1 })

/-- The comparator of `db.getFiles`: `(a, b) => new Date(b.uploadDate) -
new Date(a.uploadDate)` keeps `a` before `b` exactly when the comparator
is `≤ 0`, i.e. when `b.uploadDate ≤ a.uploadDate`. -/
def fileLe (a b : FileRec) : Bool := b.uploadDate ≤ a.uploadDate

/-- `db.getFiles`: the stored list sorted by `uploadDate` descending.
`Array.prototype.sort` is a stable sort (ECMAScript 2019), embedded as
`List.mergeSort` with the comparator above. -/
def getFiles (s : StoreState) : List FileRec :=
  s.files.mergeSort fileLe

/-- `db.getFileById`: first record whose `id` matches. -/
def getFileById (s : StoreState) (id : Nat) : Option FileRec :=
  s.files.find? (fun f => f.id == id)

/-- `findIndex` followed by `splice(index, 1)`: remove the first element
satisfying `p`, returning the removed element (if any) and the remaining
list. -/
def spliceOut (p : FileRec → Bool) (l : List FileRec) : Option FileRec × List FileRec :=
  match l.findIdx? p with
  | some i => (l[i]?, l.eraseIdx i)
  | none => (none, l)

/-- `db.deleteFile`: remove the first record matching `id` and persist; if
no record matches, return `null` and leave the store untouched. -/
def deleteFile (s : StoreState) (id : Nat) : Option FileRec × StoreState :=
  let r := spliceOut (fun f => f.id == id) s.files
  (r.1, { files := r.2, nextId := s.nextId })

/-- Value of one entry of the JSON object returned by `db.getStats`:
either a number or a nested object mapping type names to counts.  The
stats object itself is a key-value list in key insertion order, faithful
to JavaScript object semantics. -/
inductive StatVal where
  | num (n : Nat)
  | table (m : List (String × Nat))
  deriving Repr, DecidableEq

/-- One step of the `files.forEach` loop of `db.getStats`:
`byType[f.type] = (byType[f.type] || 0) + 1` bumps an existing key in
place or appends a new key at the end. -/
def bumpType (m : List (String × Nat)) (t : String) : List (String × Nat) :=
  match m with
  | [] => [(t, 1)]
  | (k, v) :: rest => if k = t then (k, v + 1) :: rest else (k, v) :: bumpType rest t

/-- `db.getStats`: totals and per-type counts over `db.getFiles()`,
returned as the key-value list of the constructed stats object
(`totalFiles`, `totalSize`, `byType`, in that order). -/
def getStats (s : StoreState) : List (String × StatVal) :=
  let files := getFiles s
  [("totalFiles", StatVal.num files.length),
   ("totalSize", StatVal.num (files.foldl (fun sum f => sum + f.size) 0)),
   ("byType", StatVal.table (files.foldl (fun m f => bumpType m f.type) []))]

/-- One character of the sanitization regex `/[^a-zA-Z0-9._-]/g → '_'` in
the multer `filename` callback: characters other than ASCII alphanumerics,
`.`, `_`, `-` become `_`. -/
def sanitizeChar (c : Char) : Char :=
  if c.isAlphanum || c = '.' || c = '_' || c = '-' then c else '_'

/-- `file.originalname.replace(/[^a-zA-Z0-9._-]/g, '_')`. -/
def safeName (s : String) : String :=
  ⟨s.data.map sanitizeChar⟩

/-- One character of `toISOString().replace(/[:.]/g, '-')`: colons and
dots of the timestamp become dashes. -/
def tsChar (c : Char) : Char :=
  if c = ':' || c = '.' then '-' else c

/-- The sanitized timestamp prefix of a stored blob name. -/
def tsSanitize (ts : String) : String :=
  ⟨ts.data.map tsChar⟩

/-- The multer `filename` callback: `` `${timestamp}_${safeName}` `` with
the ISO timestamp string passed in as `ts`. -/
def storedFilename (ts : String) (originalname : String) : String :=
  tsSanitize ts ++ "_" ++ safeName originalname

/-- The extension-to-category allow-list `ALLOWED_EXTENSIONS`. -/
def ALLOWED_EXTENSIONS : List (String × String) :=
  [(".xlsx", "spreadsheet"),
   (".xls", "spreadsheet"),
   (".csv", "spreadsheet"),
   (".ofx", "ofx"),
   (".pdf", "pdf")]

/-- `ALLOWED_EXTENSIONS[ext]`: lookup in the allow-list (`undefined`
becomes `none`). -/
def lookupExt (ext : String) : Option String :=
  ALLOWED_EXTENSIONS.lookup ext

/-- The categories appearing as values of the allow-list. -/
def coreCategories : List String := ["spreadsheet", "ofx", "pdf"]

/-- Characters of the basename: everything after the last `/`. -/
def basenameChars (cs : List Char) : List Char :=
  cs.foldl (fun acc c => if c = '/' then [] else acc ++ [c]) []

/-- Extension of a basename, Node `path.extname` style: from the last `.`
to the end, empty when there is no `.` or the only `.` is the leading
character (dotfiles).  (Node additionally returns the empty string for
basenames consisting solely of dots, such as `..`; no claim exercises
those.) -/
def extFromBase (cs : List Char) : List Char :=
  let afterDotRev := cs.reverse.takeWhile (fun c => c ≠ '.')
  if afterDotRev.length + 1 < cs.length then
    '.' :: afterDotRev.reverse
  else
    []

/-- `path.extname`. -/
def extname (s : String) : String :=
  ⟨extFromBase (basenameChars s.data)⟩

/-- `path.extname(file.originalname).toLowerCase()`, computed identically
by `fileFilter` and by the upload handler.  Lower-casing is per character
(`toLowerCase` and `Char.toLower` agree on the ASCII extensions at
stake). -/
def fileExt (originalname : String) : String :=
  ⟨(extname originalname).data.map Char.toLower⟩

/-- One incoming multipart payload as multer presents it to the handler:
client-submitted name, disk name assigned by the storage callback, size,
and the MD5 digest of the stored bytes (`getFileHash`, abstracted). -/
structure IncomingFile where
  originalname : String
  filename : String
  size : Nat
  hash : String
  deriving Repr, DecidableEq

/-- `fileFilter` accepts a file iff its lower-cased extension is a key of
`ALLOWED_EXTENSIONS` (the category strings are non-empty, hence truthy). -/
def fileFilterAccepts (f : IncomingFile) : Bool :=
  (lookupExt (fileExt f.originalname)).isSome

/-- The multer `upload.array('files', 20)` middleware stage.  Each incoming
file is passed through `fileFilter`; per multer's documented callback
contract, rejecting a file with `cb(new Error(...), false)` — which is what
this server's `fileFilter` does — aborts the whole request with that error
(forwarded to the Express error handler) instead of skipping the file, so
no later file and no handler code runs.  Accepting every file yields the
populated `req.files`.  (The 20-file count limit is not modelled; no claim
exercises it.) -/
def runMulter : List IncomingFile → Except String (List IncomingFile)
  | [] => .ok []
  | f :: rest =>
    if fileFilterAccepts f then
      (runMulter rest).map (fun fs => f :: fs)
    else
      .error ("File type " ++ fileExt f.originalname ++ " is not allowed")

/-- The `fileInfo` object the upload handler builds for one accepted file
(`type` falls back to `'unknown'` when the extension is not in the
allow-list). -/
def mkFileInfo (notes : String) (f : IncomingFile) : FileInfo :=
  { filename := f.filename
    originalName := f.originalname
    type := (lookupExt (fileExt f.originalname)).getD "unknown"
    size := f.size
    hash := f.hash
    notes := notes
    path := "uploads/" ++ f.filename }

/-- The `req.files.forEach` loop of the upload handler: hash, build
`fileInfo`, `db.addFile`, collect the saved records.  The per-file
`try/catch` collects filesystem and store exceptions; in this embedding
those operations are total, so the `errors` array stays empty for files
that reach the handler. -/
def processFiles (now : Nat) (notes : String) :
    StoreState → List IncomingFile → List FileRec × StoreState
  | s, [] => ([], s)
  | s, f :: rest =>
    let p := addFile s now (mkFileInfo notes f)
    let q := processFiles now notes p.2 rest
    (p.1 :: q.1, q.2)

/-- Response of `POST /api/upload`: either the handler's JSON body
(`success`, `uploaded`, `errors` as filename/message pairs, `message`) or
an error status produced before/outside the handler (400 for an empty
batch; 500 from the Express error handler for a non-multer error such as a
`fileFilter` rejection). -/
inductive UploadResponse where
  | ok (success : Bool) (uploaded : List FileRec) (errors : List (String × String))
      (message : String)
  | err (status : Nat) (error : String)
  deriving Repr, DecidableEq

/-- The full `POST /api/upload` pipeline: multer stage, then the handler. -/
def postUpload (s : StoreState) (now : Nat) (files : List IncomingFile)
    (notes : String) : UploadResponse × StoreState :=
  match runMulter files with
  | .error e => (.err 500 e, s)
  | .ok accepted =>
    if accepted.isEmpty then
      (.err 400 "No files uploaded", s)
    else
      let p := processFiles now notes s accepted
      (.ok (decide (0 < p.1.length)) p.1 []
        ("Successfully uploaded " ++ toString p.1.length ++ " file(s)"), p.2)

/-- Response of `DELETE /api/files/:id`. -/
inductive DeleteResponse where
  | ok (message : String)
  | notFound (error : String)
  deriving Repr, DecidableEq

/-- The `DELETE /api/files/:id` handler: `db.deleteFile`; 404 when it
returns `null`; otherwise unlink the blob only if it exists on disk
(`fs.existsSync` guard) and report success either way.  The upload
directory's contents are the `disk` list of names. -/
def deleteHandler (s : StoreState) (disk : List String) (id : Nat) :
    DeleteResponse × StoreState × List String :=
  let p := deleteFile s id
  match p.1 with
  | none => (.notFound "File not found", s, disk)
  | some file =>
    if disk.contains file.filename then
      (.ok "File deleted successfully", p.2, disk.erase file.filename)
    else
      (.ok "File deleted successfully", p.2, disk)

/-- A store mutation: one `db.addFile` or one `db.deleteFile` call. -/
inductive Op where
  | add (now : Nat) (info : FileInfo)
  | del (id : Nat)

/-- Apply one mutation to the store. -/
def applyOp (s : StoreState) : Op → StoreState
  | .add now info => (addFile s now info).2
  | .del id => (deleteFile s id).2

/-- Apply a sequence of mutations. -/
def applyOps (s : StoreState) (ops : List Op) : StoreState :=
  ops.foldl applyOp s

/-- A sequence of `db.addFile` calls (each with its clock reading),
returning the records in call order and the final store. -/
def addFiles : StoreState → List (Nat × FileInfo) → List FileRec × StoreState
  | s, [] => ([], s)
  | s, (now, info) :: rest =>
    let p := addFile s now info
    let q := addFiles p.2 rest
    (p.1 :: q.1, q.2)

/-! ### Helper lemmas -/

theorem spliceOut_nil (p : FileRec → Bool) : spliceOut p [] = (none, []) := rfl

theorem spliceOut_cons (p : FileRec → Bool) (f : FileRec) (rest : List FileRec) :
    spliceOut p (f :: rest) =
      if p f then (some f, rest)
      else ((spliceOut p rest).1, f :: (spliceOut p rest).2) := by
  simp only [spliceOut, List.findIdx?_cons]
  by_cases h : p f
  · simp [h]
  · simp only [h, Bool.false_eq_true, if_false, List.findIdx?_succ]
    cases hfi : rest.findIdx? p with
    | none => simp
    | some j => simp

theorem spliceOut_fst (p : FileRec → Bool) :
    ∀ l : List FileRec, (spliceOut p l).1 = l.find? p := by
  intro l
  induction l with
  | nil => rfl
  | cons f rest ih =>
    rw [spliceOut_cons]
    by_cases h : p f
    · simp [h, List.find?_cons_of_pos]
    · simp [h, List.find?_cons_of_neg, ih]

theorem deleteFile_nextId (s : StoreState) (id : Nat) :
    (deleteFile s id).2.nextId = s.nextId := rfl

/-! ### C2: id assignment -/

theorem addFiles_ids (calls : List (Nat × FileInfo)) :
    ∀ s : StoreState,
      (addFiles s calls).1.map (fun r => r.id) = List.range' s.nextId calls.length := by
  induction calls with
  | nil => intro s; rfl
  | cons x rest ih =>
    intro s
    cases x with
    | mk now info =>
      simp only [addFiles, List.map_cons, List.length_cons, List.range'_succ]
      exact congrArg (s.nextId :: ·) (ih (addFile s now info).2)

theorem applyOp_nextId_le (s : StoreState) (op : Op) :
    s.nextId ≤ (applyOp s op).nextId := by
  cases op with
  | add now info => exact Nat.le_succ _
  | del id => exact Nat.le_of_eq (deleteFile_nextId s id).symm

theorem applyOps_nextId_le (ops : List Op) :
    ∀ s : StoreState, s.nextId ≤ (applyOps s ops).nextId := by
  induction ops with
  | nil => intro s; exact Nat.le_refl _
  | cons op rest ih =>
    intro s
    exact Nat.le_trans (applyOp_nextId_le s op) (ih (applyOp s op))

/-- C2: starting from any store state, the ids assigned by a sequence of
`db.addFile` calls are strictly increasing and pairwise distinct, and the
`nextId` counter never decreases across any sequence of `db.addFile` and
`db.deleteFile` operations. -/
theorem addFile_ids_strictly_increasing_nextId_monotone
    (s : StoreState) (calls : List (Nat × FileInfo)) (ops : List Op) :
    ((addFiles s calls).1.map (fun r => r.id)).Pairwise (· < ·) ∧
    ((addFiles s calls).1.map (fun r => r.id)).Pairwise (· ≠ ·) ∧
    s.nextId ≤ (applyOps s ops).nextId := by
  refine ⟨?_, ?_, applyOps_nextId_le ops s⟩
  · rw [addFiles_ids]
    exact List.pairwise_lt_range' _ _
  · rw [addFiles_ids]
    exact (List.pairwise_lt_range' _ _).imp Nat.ne_of_lt

/-! ### C4: statistics on the empty store -/

/-- C4 (counterexample): on the empty store, `db.getStats` does not return
an object of shape `{totalCount:0, totalSize:0, byType:{}}` — there is no
`totalCount` key at all; the count key is `totalFiles`. -/
theorem getStats_empty_shape_uses_totalFiles_not_totalCount :
    getStats emptyStore ≠
      [("totalCount", StatVal.num 0), ("totalSize", StatVal.num 0),
       ("byType", StatVal.table [])] ∧
    (getStats emptyStore).lookup "totalCount" = none := by
  exact ⟨by decide, by decide⟩

/-- C4 (amended): on the empty store, `db.getStats` returns exactly
`{totalFiles:0, totalSize:0, byType:{}}`. -/
theorem getStats_empty_store_shape :
    getStats emptyStore =
      [("totalFiles", StatVal.num 0), ("totalSize", StatVal.num 0),
       ("byType", StatVal.table [])] := by
  simp [getStats, getFiles, emptyStore]

/-! ### C6: recovery from an unparseable store document -/

/-- C6: whenever parsing the persisted document fails, `db.read` returns
the empty state (no records, `nextId = 1`), and the read operations on
that state behave as on a fresh store. -/
theorem db_read_unparseable_yields_empty_state (e : String) :
    db_read (.error e) = emptyStore ∧
    (db_read (.error e)).files = [] ∧
    (db_read (.error e)).nextId = 1 ∧
    getFiles (db_read (.error e)) = [] ∧
    (∀ id : Nat, getFileById (db_read (.error e)) id = none) := by
  exact ⟨rfl, rfl, rfl, by simp [getFiles, db_read], fun _ => rfl⟩

/-! ### C3: listing order -/

theorem fileLe_trans : ∀ a b c : FileRec, fileLe a b → fileLe b c → fileLe a c := by
  intro a b c hab hbc
  simp only [fileLe, decide_eq_true_eq] at *
  omega

theorem fileLe_total : ∀ a b : FileRec, fileLe a b || fileLe b a := by
  intro a b
  simp only [fileLe, Bool.or_eq_true, decide_eq_true_eq]
  omega

/-- C3: `db.getFiles` returns the records sorted by `uploadDate`
descending, and records with equal `uploadDate` keep their stored
(insertion) order: for each timestamp the subsequence of records carrying
it is unchanged. -/
theorem getFiles_sorted_by_uploadDate_descending_stable (s : StoreState) :
    (getFiles s).Pairwise (fun a b => b.uploadDate ≤ a.uploadDate) ∧
    ∀ t : Nat,
      (getFiles s).filter (fun f => f.uploadDate == t) =
        s.files.filter (fun f => f.uploadDate == t) := by
  constructor
  · have h := List.sorted_mergeSort fileLe_trans fileLe_total s.files
    exact h.imp (fun hab => by simpa [fileLe] using hab)
  · intro t
    have hc : (s.files.filter (fun f => f.uploadDate == t)).Pairwise
        (fun a b => fileLe a b = true) := by
      apply List.pairwise_of_forall_mem_list
      intro a ha b hb
      have ha' := (List.mem_filter.mp ha).2
      have hb' := (List.mem_filter.mp hb).2
      simp only [beq_iff_eq] at ha' hb'
      simp [fileLe, ha', hb']
    have hsub : List.Sublist (s.files.filter (fun f => f.uploadDate == t)) (getFiles s) :=
      List.sublist_mergeSort fileLe_trans fileLe_total hc (List.filter_sublist s.files)
    have hfil : (s.files.filter (fun f => f.uploadDate == t)).filter
        (fun f => f.uploadDate == t) = s.files.filter (fun f => f.uploadDate == t) :=
      List.filter_eq_self.mpr (fun a ha => (List.mem_filter.mp ha).2)
    have h2 : List.Sublist (s.files.filter (fun f => f.uploadDate == t))
        ((getFiles s).filter (fun f => f.uploadDate == t)) := by
      rw [← hfil]
      exact hsub.filter _
    have hlen : ((getFiles s).filter (fun f => f.uploadDate == t)).length =
        (s.files.filter (fun f => f.uploadDate == t)).length :=
      ((List.mergeSort_perm s.files fileLe).filter _).length_eq
    exact (h2.eq_of_length hlen.symm).symm

/-! ### C5: remove followed by lookup -/

/-- A record used in concrete test stores. -/
def dupRecordA : FileRec :=
  { id := 1, filename := "blob-a", originalName := "a.pdf", type := "pdf", size := 5,
    hash := "ha", notes := "", path := "uploads/blob-a", uploadDate := 10,
    status := "uploaded" }

/-- A second record carrying the same id 1 as `dupRecordA`. -/
def dupRecordB : FileRec :=
  { dupRecordA with filename := "blob-b", path := "uploads/blob-b" }

/-- A store state whose persisted document carries two records with the
same id; nothing in `db.read` rules such a document out. -/
def dupIdStore : StoreState := { files := [dupRecordA, dupRecordB], nextId := 2 }

/-- C5 (counterexample): on a store holding two records with id 1,
`db.deleteFile(1)` removes only the first matching record, and
`db.getFileById(1)` afterwards still finds the second — not absent. -/
theorem deleteFile_duplicate_id_still_findable :
    getFileById (deleteFile dupIdStore 1).2 1 = some dupRecordB := by decide

theorem spliceOut_removes_all_matches_of_nodup (id : Nat) :
    ∀ l : List FileRec, (l.map (fun f => f.id)).Nodup →
      (spliceOut (fun f => f.id == id) l).2.find? (fun f => f.id == id) = none := by
  intro l
  induction l with
  | nil => intro _; rfl
  | cons f rest ih =>
    intro h
    rw [List.map_cons, List.nodup_cons] at h
    rw [spliceOut_cons]
    by_cases hf : f.id == id
    · simp only [hf, if_true]
      apply List.find?_eq_none.mpr
      intro g hg
      have : f.id ≠ g.id := fun e => h.1 (e ▸ List.mem_map_of_mem (fun r => r.id) hg)
      simp only [beq_iff_eq] at hf ⊢
      omega
    · simp only [hf, Bool.false_eq_true, if_false]
      have hrest := ih h.2
      rw [List.find?_eq_none] at hrest ⊢
      intro x hx
      cases hx with
      | head => exact hf
      | tail _ hx => exact hrest x hx

/-- C5 (amended): on every store state whose record ids are pairwise
distinct — the store invariant maintained by `db.addFile` — `db.deleteFile`
followed by `db.getFileById` on the same id yields absent. -/
theorem deleteFile_then_getFileById_absent (s : StoreState) (id : Nat)
    (h : (s.files.map (fun f => f.id)).Nodup) :
    getFileById (deleteFile s id).2 id = none :=
  spliceOut_removes_all_matches_of_nodup id s.files h

/-- A store with distinct record ids, for the witness below. -/
def distinctIdStore : StoreState :=
  { files := [dupRecordA, { dupRecordB with id := 2 }], nextId := 3 }

theorem deleteFile_then_getFileById_absent_witness :
    (distinctIdStore.files.map (fun f => f.id)).Nodup ∧
    getFileById (deleteFile distinctIdStore 1).2 1 = none :=
  ⟨by decide, deleteFile_then_getFileById_absent distinctIdStore 1 (by decide)⟩

/-! ### C9: frame property of deletion -/

theorem spliceOut_snd_filter (p : FileRec → Bool) :
    ∀ l : List FileRec,
      (spliceOut p l).2.filter (fun f => !(p f)) = l.filter (fun f => !(p f)) := by
  intro l
  induction l with
  | nil => rfl
  | cons f rest ih =>
    rw [spliceOut_cons]
    by_cases h : p f
    · simp [h, List.filter_cons]
    · simp [h, List.filter_cons, ih]

theorem spliceOut_snd_sublist (p : FileRec → Bool) :
    ∀ l : List FileRec, List.Sublist (spliceOut p l).2 l := by
  intro l
  induction l with
  | nil => exact List.Sublist.refl _
  | cons f rest ih =>
    rw [spliceOut_cons]
    by_cases h : p f
    · simp only [h, if_true]
      exact List.sublist_cons_self f rest
    · simp only [h, Bool.false_eq_true, if_false]
      exact ih.cons₂ f

/-- C9: `db.deleteFile` changes at most the first record matching the id:
the `nextId` counter is untouched, the records with a different id are
kept unchanged in their original relative order, and no record is added —
whether or not a matching record was found. -/
theorem deleteFile_frame_preserves_others (s : StoreState) (id : Nat) :
    (deleteFile s id).2.nextId = s.nextId ∧
    (deleteFile s id).2.files.filter (fun f => !(f.id == id)) =
      s.files.filter (fun f => !(f.id == id)) ∧
    List.Sublist (deleteFile s id).2.files s.files := by
  refine ⟨rfl, ?_, ?_⟩
  · exact spliceOut_snd_filter (fun f => f.id == id) s.files
  · exact spliceOut_snd_sublist (fun f => f.id == id) s.files

/-! ### C1: batch upload with one disallowed file -/

/-- A spreadsheet payload accepted by the extension filter. -/
def csvPayload : IncomingFile :=
  { originalname := "report.csv", filename := "ts_report.csv", size := 100, hash := "h1" }

/-- A payload whose `.txt` extension is outside the allow-list. -/
def txtPayload : IncomingFile :=
  { originalname := "notes.txt", filename := "ts_notes.txt", size := 50, hash := "h2" }

/-- A PDF payload accepted by the extension filter. -/
def pdfPayload : IncomingFile :=
  { originalname := "doc.pdf", filename := "ts_doc.pdf", size := 200, hash := "h3" }

/-- C1 (code bug): a batch of 3 files in which only `notes.txt` carries a
disallowed extension does not yield 2 successful records plus 1 per-file
failure with `success:true` — the `fileFilter` rejection aborts the whole
request, surfacing as a 500 error response with no records stored, while
the same batch without the disallowed file uploads both remaining files. -/
theorem upload_batch_disallowed_extension_aborts_request :
    postUpload emptyStore 0 [csvPayload, txtPayload, pdfPayload] "" =
      (.err 500 "File type .txt is not allowed", emptyStore) ∧
    (processFiles 0 "" emptyStore [csvPayload, pdfPayload]).1.length = 2 ∧
    postUpload emptyStore 0 [csvPayload, pdfPayload] "" =
      (.ok true (processFiles 0 "" emptyStore [csvPayload, pdfPayload]).1 []
        "Successfully uploaded 2 file(s)",
       (processFiles 0 "" emptyStore [csvPayload, pdfPayload]).2) := by
  refine ⟨by decide, by decide, by decide⟩

/-! ### C7: sanitization of stored blob names -/

/-- C7: every stored blob name is the sanitized timestamp joined to the
original name with each character outside `[a-zA-Z0-9._-]` replaced by
`_`; in particular no `/` survives (given the ISO timestamp contains
none), the traversal attempt `../../etc/passwd.csv` sanitizes to
`.._.._etc_passwd.csv`, and the record built by the upload handler keeps
the client-submitted `originalName` unchanged. -/
theorem storedFilename_safe_and_originalName_preserved
    (ts orig : String) (hts : '/' ∉ ts.data)
    (s : StoreState) (now : Nat) (notes : String) (f : IncomingFile) :
    (∀ c ∈ (safeName orig).data, c.isAlphanum ∨ c = '.' ∨ c = '_' ∨ c = '-') ∧
    '/' ∉ (storedFilename ts orig).data ∧
    safeName "../../etc/passwd.csv" = ".._.._etc_passwd.csv" ∧
    (addFile s now (mkFileInfo notes f)).1.originalName = f.originalname := by
  refine ⟨?_, ?_, by decide, rfl⟩
  · intro c hc
    have hc' : c ∈ orig.data.map sanitizeChar := hc
    rcases List.mem_map.mp hc' with ⟨x, _, hxe⟩
    unfold sanitizeChar at hxe
    split at hxe
    · rename_i hcond
      simp only [Bool.or_eq_true, decide_eq_true_eq] at hcond
      rw [← hxe]
      tauto
    · rw [← hxe]
      exact Or.inr (Or.inr (Or.inl rfl))
  · intro hmem
    have hdata : (storedFilename ts orig).data =
        (ts.data.map tsChar ++ ['_']) ++ orig.data.map sanitizeChar := rfl
    rw [hdata, List.append_assoc, List.singleton_append] at hmem
    rcases List.mem_append.mp hmem with h1 | h1
    · rcases List.mem_map.mp h1 with ⟨x, hx, hxe⟩
      unfold tsChar at hxe
      split at hxe
      · exact absurd hxe (by decide)
      · exact hts (hxe ▸ hx)
    · rcases List.mem_cons.mp h1 with h2 | h2
      · exact absurd h2.symm (by decide)
      · rcases List.mem_map.mp h2 with ⟨x, _, hxe⟩
        unfold sanitizeChar at hxe
        split at hxe
        · rename_i hcond
          rw [hxe] at hcond
          exact absurd hcond (by decide)
        · exact absurd hxe (by decide)

theorem storedFilename_safe_and_originalName_preserved_witness :
    '/' ∉ "2025-01-01T00:00:00.000Z".data ∧
    ((∀ c ∈ (safeName "../../etc/passwd.csv").data,
        c.isAlphanum ∨ c = '.' ∨ c = '_' ∨ c = '-') ∧
     '/' ∉ (storedFilename "2025-01-01T00:00:00.000Z" "../../etc/passwd.csv").data ∧
     safeName "../../etc/passwd.csv" = ".._.._etc_passwd.csv" ∧
     (addFile emptyStore 0 (mkFileInfo "" pdfPayload)).1.originalName =
       pdfPayload.originalname) :=
  ⟨by decide,
   storedFilename_safe_and_originalName_preserved "2025-01-01T00:00:00.000Z"
     "../../etc/passwd.csv" (by decide) emptyStore 0 "" pdfPayload⟩

/-! ### C8: deletion with the blob already gone from disk -/

theorem spliceOut_length (p : FileRec → Bool) :
    ∀ (l : List FileRec) (r : FileRec), (spliceOut p l).1 = some r →
      (spliceOut p l).2.length + 1 = l.length := by
  intro l
  induction l with
  | nil => intro r h; simp [spliceOut_nil] at h
  | cons f rest ih =>
    intro r h
    rw [spliceOut_cons] at h ⊢
    by_cases hf : p f
    · simp [hf]
    · simp only [hf, Bool.false_eq_true, if_false] at h ⊢
      simp only [List.length_cons]
      rw [ih r h]

/-- C8: when the record is present but its blob is absent from the upload
directory, the delete handler still removes the record and reports full
success, leaving the disk untouched (unlinking an absent blob is skipped,
not an error). -/
theorem deleteHandler_succeeds_when_blob_missing (s : StoreState) (disk : List String)
    (id : Nat) (r : FileRec) (hfound : getFileById s id = some r)
    (hmiss : r.filename ∉ disk) :
    deleteHandler s disk id =
      (.ok "File deleted successfully", (deleteFile s id).2, disk) ∧
    (deleteFile s id).2.files.length + 1 = s.files.length := by
  have hfst : (deleteFile s id).1 = some r := by
    show (spliceOut (fun f => f.id == id) s.files).1 = some r
    rw [spliceOut_fst]
    exact hfound
  have hcont : disk.contains r.filename = false := by
    simp [List.contains, hmiss]
  constructor
  · simp only [deleteHandler, hfst, hcont, Bool.false_eq_true, if_false]
  · exact spliceOut_length (fun f => f.id == id) s.files r hfst

/-- A one-record store for the C8 witness. -/
def c8Store : StoreState := { files := [dupRecordA], nextId := 2 }

theorem deleteHandler_succeeds_when_blob_missing_witness :
    getFileById c8Store 1 = some dupRecordA ∧
    dupRecordA.filename ∉ (["other-blob"] : List String) ∧
    (deleteHandler c8Store ["other-blob"] 1 =
      (.ok "File deleted successfully", (deleteFile c8Store 1).2, ["other-blob"]) ∧
     (deleteFile c8Store 1).2.files.length + 1 = c8Store.files.length) :=
  ⟨by decide, by decide,
   deleteHandler_succeeds_when_blob_missing c8Store ["other-blob"] 1 dupRecordA
     (by decide) (by decide)⟩

/-! ### C10: record categories -/

theorem lookupExt_mem_coreCategories (e v : String) (h : lookupExt e = some v) :
    v ∈ coreCategories := by
  rcases List.lookup_eq_some_iff.mp h with ⟨l₁, l₂, heq, -⟩
  have hv : (e, v) ∈ ALLOWED_EXTENSIONS := by
    rw [heq]
    exact List.mem_append_right _ (List.mem_cons_self _ _)
  simp only [ALLOWED_EXTENSIONS, List.mem_cons, List.not_mem_nil, or_false] at hv
  rcases hv with h1 | h1 | h1 | h1 | h1 <;>
    (rw [Prod.mk.injEq] at h1; rcases h1 with ⟨-, rfl⟩; decide)

/-- C10: a file that passed `fileFilter` produces a record whose `type` is
one of `spreadsheet`, `ofx`, `pdf` — the `'unknown'` fallback of the
handler is unreachable — and both `db.addFile` and `db.deleteFile`
preserve the property that every stored record's `type` lies in that
set. -/
theorem upload_records_type_in_allowlist (f : IncomingFile) (notes : String)
    (s : StoreState) (now : Nat) (id : Nat)
    (hacc : fileFilterAccepts f = true)
    (hgood : ∀ r ∈ s.files, r.type ∈ coreCategories) :
    (mkFileInfo notes f).type ∈ coreCategories ∧
    (mkFileInfo notes f).type ≠ "unknown" ∧
    (∀ r ∈ (addFile s now (mkFileInfo notes f)).2.files, r.type ∈ coreCategories) ∧
    (∀ r ∈ (deleteFile s id).2.files, r.type ∈ coreCategories) := by
  have hsome : (lookupExt (fileExt f.originalname)).isSome := hacc
  obtain ⟨v, hv⟩ := Option.isSome_iff_exists.mp hsome
  have hvmem := lookupExt_mem_coreCategories _ _ hv
  have htype : (mkFileInfo notes f).type = v := by simp [mkFileInfo, hv]
  refine ⟨?_, ?_, ?_, ?_⟩
  · rw [htype]
    exact hvmem
  · rw [htype]
    intro hcontra
    rw [hcontra] at hvmem
    exact absurd hvmem (by decide)
  · intro r hr
    rcases List.mem_append.mp hr with h1 | h1
    · exact hgood r h1
    · have h2 : r = (addFile s now (mkFileInfo notes f)).1 := by simpa using h1
      have h3 : r.type = (mkFileInfo notes f).type := by rw [h2]; rfl
      rw [h3, htype]
      exact hvmem
  · intro r hr
    exact hgood r ((spliceOut_snd_sublist (fun g => g.id == id) s.files).subset hr)

theorem upload_records_type_in_allowlist_witness :
    fileFilterAccepts pdfPayload = true ∧
    (∀ r ∈ emptyStore.files, r.type ∈ coreCategories) ∧
    ((mkFileInfo "" pdfPayload).type ∈ coreCategories ∧
     (mkFileInfo "" pdfPayload).type ≠ "unknown" ∧
     (∀ r ∈ (addFile emptyStore 7 (mkFileInfo "" pdfPayload)).2.files,
        r.type ∈ coreCategories) ∧
     (∀ r ∈ (deleteFile emptyStore 3).2.files, r.type ∈ coreCategories)) :=
  ⟨by decide, by simp [emptyStore],
   upload_records_type_in_allowlist pdfPayload "" emptyStore 7 3 (by decide)
     (by simp [emptyStore])⟩

end JBsn
